import Mathlib

/-!
Shallow embedding of the room-chat relay server (`src/server.js`) and proofs of
the specification claims about it.

The embedding models the engine state (`users`, `rooms`, `messageHistory` maps,
lines 44-46 of the source), the admission middleware (lines 49-64), the
connection handler (lines 66-98), the `send_message` handler (lines 101-133),
the typing handlers (lines 136-146), the `disconnect` handler (lines 149-176)
and `broadcastUserList` (lines 180-194).

JavaScript `Map` objects are modelled as association lists with in-place
replacement on `set` (JS `Map.set` keeps the key's position); JS `Set` objects
as duplicate-free lists in insertion order.  `String.prototype.trim` is
modelled as `jsTrim`, dropping `Char.isWhitespace` characters from both ends of
the character list.  String `.length` is modelled as the character count.
Event handlers are pure functions returning the new state plus the list of
socket emissions performed, in program order.
-/

namespace Chat

/-- A stored presence record: the value type of the `users` map (lines 70-74). -/
structure PresenceRecord where
  username : String
  room : String
  joinedAt : Nat
deriving DecidableEq, Repr

/-- A chat message as built by the `send_message` handler (lines 111-117). -/
structure Message where
  id : String
  username : String
  message : String
  timestamp : Nat
  room : String
deriving DecidableEq, Repr

/-- One entry of the `user_list` payload built by `broadcastUserList` (lines 186-189). -/
structure UserEntry where
  username : String
  joinedAt : Nat
deriving DecidableEq, Repr

/-- Association-list lookup, modelling JS `Map.get` / `Map.has`. -/
def mfind {V : Type} : List (String × V) → String → Option V
  | [], _ => none
  | (k', v) :: rest, k => if k' = k then some v else mfind rest k

/-- Association-list update, modelling JS `Map.set`: replaces the value in
place when the key is present, appends otherwise. -/
def mset {V : Type} : List (String × V) → String → V → List (String × V)
  | [], k, v => [(k, v)]
  | (k', v') :: rest, k, v =>
    if k' = k then (k, v) :: rest else (k', v') :: mset rest k v

/-- Association-list deletion, modelling JS `Map.delete`. -/
def mdel {V : Type} : List (String × V) → String → List (String × V)
  | [], _ => []
  | (k', v) :: rest, k => if k' = k then mdel rest k else (k', v) :: mdel rest k

/-- JS `Set.add`: appends the element unless already present. -/
def setAdd (s : List String) (x : String) : List String :=
  if x ∈ s then s else s ++ [x]

/-- JS `Set.delete`: removes the element, keeping insertion order. -/
def setDel : List String → String → List String
  | [], _ => []
  | y :: rest, x => if y = x then setDel rest x else y :: setDel rest x

/-- Drop whitespace from both ends of a character list. -/
def trimChars (l : List Char) : List Char :=
  ((l.dropWhile Char.isWhitespace).reverse.dropWhile Char.isWhitespace).reverse

/-- Model of JS `String.prototype.trim`: removes leading and trailing
whitespace characters. -/
def jsTrim (s : String) : String := String.mk (trimChars s.data)

/-- The engine's process-wide state: the three in-memory maps of lines 44-46. -/
structure ServerState where
  users : List (String × PresenceRecord)
  rooms : List (String × List String)
  messageHistory : List (String × List Message)
deriving DecidableEq, Repr

/-- The empty initial state (fresh process, lines 44-46). -/
def initState : ServerState := ⟨[], [], []⟩

/-- The current member list of a room, `[]` for an unknown room.  Used both
for `io.to(room)` recipient sets and for `rooms.get(room).size` counts. -/
def roomMembers (s : ServerState) (r : String) : List String :=
  (mfind s.rooms r).getD []

/-- Number of members of a room, `0` for an unknown room. -/
def memberCount (s : ServerState) (r : String) : Nat :=
  (roomMembers s r).length

/-- One socket emission.  Room-targeted emissions carry the room name and the
recipient connection-id list that `io.to(room)` / `socket.to(room)` resolves
to at the instant of the call; direct emissions carry the target id. -/
inductive Emit where
  | messageHistory (target : String) (payload : List Message)
  | userJoined (room : String) (recipients : List String)
      (username : String) (timestamp : Nat) (userCount : Nat)
  | userList (room : String) (recipients : List String) (payload : List UserEntry)
  | newMessage (room : String) (recipients : List String) (payload : Message)
  | userTyping (room : String) (recipients : List String) (username : String)
  | userStopTyping (room : String) (recipients : List String) (username : String)
  | userLeft (room : String) (recipients : List String)
      (username : String) (timestamp : Nat) (userCount : Nat)
  | error (target : String) (message : String)
deriving DecidableEq, Repr

/-- Admission errors of the middleware (lines 53-59). -/
inductive AdmissionError where
  | invalidUsername
  | usernameTooLong
deriving DecidableEq, Repr

/-- The admission middleware (lines 49-64): `room` defaults to `"general"`
when absent or falsy (the empty string); a username that is absent or trims
to empty is rejected as invalid; a username whose raw length exceeds 50 is
rejected as too long; otherwise both strings are trimmed and accepted. -/
def admission (usernameOpt roomOpt : Option String) :
    Except AdmissionError (String × String) :=
  let room : String :=
    match roomOpt with
    | none => "general"
    | some r => if r = "" then "general" else r
  match usernameOpt with
  | none => Except.error AdmissionError.invalidUsername
  | some username =>
    if (jsTrim username).length = 0 then Except.error AdmissionError.invalidUsername
    else if username.length > 50 then Except.error AdmissionError.usernameTooLong
    else Except.ok (jsTrim username, jsTrim room)

/-- The `user_list` payload built by `broadcastUserList` (lines 181-192):
the room's member ids in insertion order, each resolved through the `users`
map, entries with no presence record skipped. -/
def userListFor (s : ServerState) (r : String) : List UserEntry :=
  (roomMembers s r).filterMap fun sid =>
    (mfind s.users sid).map fun u => UserEntry.mk u.username u.joinedAt

/-- `broadcastUserList(room)` (lines 180-194): emits `user_list` to the whole
room.  A pure read of the state: it mutates nothing. -/
def broadcastUserList (s : ServerState) (r : String) : Emit :=
  Emit.userList r (roomMembers s r) (userListFor s r)

/-- `array.slice(-n)`: the last `n` elements (the whole list when shorter). -/
def sliceLast {α : Type} (l : List α) (n : Nat) : List α :=
  l.drop (l.length - n)

/-- One history insertion (lines 121-124): push, then shift off the oldest
entry when the length exceeds 100. -/
def ringPush (h : List Message) (m : Message) : List Message :=
  if (h ++ [m]).length > 100 then (h ++ [m]).tail else h ++ [m]

/-- The connection handler body (lines 66-98), entered after admission with
the normalized username and room: stores the presence record, lazily creates
the room's member set and history ring together, adds the socket to the member
set, replays the last 50 history entries to the joiner, notifies the others,
and broadcasts the full user list. -/
def handleConnection (s : ServerState) (id username room : String) (now : Nat) :
    ServerState × List Emit :=
  let users1 := mset s.users id (PresenceRecord.mk username room now)
  let init := (mfind s.rooms room).isSome
  let rooms1 := if init then s.rooms else mset s.rooms room []
  let hist1 := if init then s.messageHistory else mset s.messageHistory room []
  let rooms2 := mset rooms1 room (setAdd ((mfind rooms1 room).getD []) id)
  let s' : ServerState := ⟨users1, rooms2, hist1⟩
  let history := (mfind hist1 room).getD []
  (s',
    [Emit.messageHistory id (sliceLast history 50),
     Emit.userJoined room ((roomMembers s' room).filter (fun i => i ≠ id))
       username now (roomMembers s' room).length,
     broadcastUserList s' room])

/-- The `send_message` handler (lines 101-133).  `socket.username` and
`socket.room` are read from the connection's presence record, which the
connection handler set from the same values and which no other handler
rewrites; an event from a connection id with no record cannot be delivered by
the transport and is modelled as a no-op.  An empty (after trim) body returns
silently; an over-length body answers `error` to the sender only; otherwise
the message is built, pushed into the room's ring and broadcast to the whole
room.  When the room has no ring, `history.push` throws on `undefined` and the
surrounding `catch` (lines 129-132) answers `error{Failed to send message}`
with no state change. -/
def handleSend (s : ServerState) (id : String) (data : Option String) (now : Nat) :
    ServerState × List Emit :=
  match mfind s.users id with
  | none => (s, [])
  | some u =>
    let message := jsTrim (data.getD "")
    if message.length = 0 then (s, [])
    else if message.length > 1000 then (s, [Emit.error id "Message too long"])
    else
      let messageData : Message :=
        ⟨id ++ "-" ++ toString now, u.username, message, now, u.room⟩
      match mfind s.messageHistory u.room with
      | none => (s, [Emit.error id "Failed to send message"])
      | some history =>
        let s' : ServerState :=
          ⟨s.users, s.rooms, mset s.messageHistory u.room (ringPush history messageData)⟩
        (s', [Emit.newMessage u.room (roomMembers s' u.room) messageData])

/-- The `typing` handler (lines 136-140): ephemeral signal to the rest of the
room. -/
def handleTyping (s : ServerState) (id : String) : ServerState × List Emit :=
  match mfind s.users id with
  | none => (s, [])
  | some u =>
    (s, [Emit.userTyping u.room ((roomMembers s u.room).filter (fun i => i ≠ id)) u.username])

/-- The `stop_typing` handler (lines 142-146). -/
def handleStopTyping (s : ServerState) (id : String) : ServerState × List Emit :=
  match mfind s.users id with
  | none => (s, [])
  | some u =>
    (s, [Emit.userStopTyping u.room ((roomMembers s u.room).filter (fun i => i ≠ id)) u.username])

/-- The `disconnect` handler (lines 149-176): when the connection has a
presence record, removes it from its room's member set, deletes the room entry
and its history ring together when the set empties, notifies the remaining
members (`user_left` carries the post-leave count) and rebroadcasts the user
list; the presence record is deleted last (line 175), after the broadcasts.
By `disconnect` time the socket has already left the transport-level room, so
the remaining member set is the recipient set of both broadcasts. -/
def handleDisconnect (s : ServerState) (id : String) (now : Nat) :
    ServerState × List Emit :=
  match mfind s.users id with
  | none => (⟨mdel s.users id, s.rooms, s.messageHistory⟩, [])
  | some user =>
    let room := user.room
    let roomsAndHist :=
      match mfind s.rooms room with
      | none => (s.rooms, s.messageHistory)
      | some members =>
        let members' := setDel members id
        if members'.length = 0 then (mdel s.rooms room, mdel s.messageHistory room)
        else (mset s.rooms room members', s.messageHistory)
    let s1 : ServerState := ⟨s.users, roomsAndHist.1, roomsAndHist.2⟩
    (⟨mdel s1.users id, s1.rooms, s1.messageHistory⟩,
      [Emit.userLeft room (roomMembers s1 room) user.username now (roomMembers s1 room).length,
       broadcastUserList s1 room])

/-- An inbound event as delivered by the transport, carrying the implicit
connection id.  `connect` carries the raw handshake auth fields. -/
inductive Event where
  | connect (id : String) (usernameOpt roomOpt : Option String) (now : Nat)
  | sendMessage (id : String) (data : Option String) (now : Nat)
  | typing (id : String)
  | stopTyping (id : String)
  | disconnect (id : String) (now : Nat)

/-- One event-handler execution: admission gates a `connect` (a rejected
attempt runs no handler and mutates nothing); the other events dispatch to
their handlers. -/
def step (s : ServerState) (e : Event) : ServerState × List Emit :=
  match e with
  | .connect id u? r? now =>
    match admission u? r? with
    | .error _ => (s, [])
    | .ok (username, room) => handleConnection s id username room now
  | .sendMessage id d now => handleSend s id d now
  | .typing id => handleTyping s id
  | .stopTyping id => handleStopTyping s id
  | .disconnect id now => handleDisconnect s id now

/-- Transport guarantee: a `connect` event carries a connection id that is
fresh (never equal to the id of a currently live connection); other events
carry whatever id the transport reports. -/
def Allowed (s : ServerState) (e : Event) : Prop :=
  match e with
  | .connect id _ _ _ => mfind s.users id = none
  | _ => True

/-- The states the engine can be in between event-handler executions. -/
inductive Reachable : ServerState → Prop where
  | init : Reachable initState
  | next {s : ServerState} (e : Event) :
      Reachable s → Allowed s e → Reachable (step s e).1

/-! ### Association-list and set lemmas -/

theorem mfind_mset_self {V : Type} (m : List (String × V)) (k : String) (v : V) :
    mfind (mset m k v) k = some v := by
  induction m with
  | nil => simp [mset, mfind]
  | cons p rest ih =>
    obtain ⟨k', v'⟩ := p
    by_cases h : k' = k
    · simp [mset, mfind, h]
    · simp [mset, mfind, h, ih]

theorem mfind_mset_ne {V : Type} (m : List (String × V)) (k k' : String) (v : V)
    (h : k' ≠ k) : mfind (mset m k v) k' = mfind m k' := by
  induction m with
  | nil =>
    have hne : k ≠ k' := fun hk => h hk.symm
    simp [mset, mfind, hne]
  | cons p rest ih =>
    obtain ⟨k0, v0⟩ := p
    by_cases h0 : k0 = k
    · subst h0
      have hne : k0 ≠ k' := fun hk => h hk.symm
      simp [mset, mfind, hne]
    · simp [mset, mfind, h0, ih]

theorem mfind_mdel_self {V : Type} (m : List (String × V)) (k : String) :
    mfind (mdel m k) k = none := by
  induction m with
  | nil => simp [mdel, mfind]
  | cons p rest ih =>
    obtain ⟨k0, v0⟩ := p
    by_cases h0 : k0 = k
    · simp [mdel, h0, ih]
    · simp [mdel, mfind, h0, ih]

theorem mfind_mdel_ne {V : Type} (m : List (String × V)) (k k' : String)
    (h : k' ≠ k) : mfind (mdel m k) k' = mfind m k' := by
  induction m with
  | nil => simp [mdel]
  | cons p rest ih =>
    obtain ⟨k0, v0⟩ := p
    by_cases h0 : k0 = k
    · subst h0
      have hne : k0 ≠ k' := fun hk => h hk.symm
      simp [mdel, mfind, hne, ih]
    · simp [mdel, mfind, h0, ih]

theorem mdel_of_mfind_none {V : Type} (m : List (String × V)) (k : String)
    (h : mfind m k = none) : mdel m k = m := by
  induction m with
  | nil => simp [mdel]
  | cons p rest ih =>
    obtain ⟨k0, v0⟩ := p
    by_cases h0 : k0 = k
    · simp [mfind, h0] at h
    · simp [mfind, h0] at h
      simp [mdel, h0, ih h]

theorem mem_setAdd (s : List String) (x a : String) :
    a ∈ setAdd s x ↔ a ∈ s ∨ a = x := by
  by_cases h : x ∈ s
  · rw [setAdd, if_pos h]
    exact ⟨Or.inl, fun hc => hc.elim id (fun ha => ha ▸ h)⟩
  · rw [setAdd, if_neg h]
    simp

theorem setAdd_ne_nil (s : List String) (x : String) : setAdd s x ≠ [] := by
  by_cases h : x ∈ s
  · intro hnil
    rw [setAdd, if_pos h] at hnil
    rw [hnil] at h
    exact (List.not_mem_nil x) h
  · simp [setAdd, h]

theorem setAdd_nodup (s : List String) (x : String) (h : s.Nodup) :
    (setAdd s x).Nodup := by
  by_cases hx : x ∈ s
  · simpa [setAdd, hx] using h
  · rw [setAdd, if_neg hx]
    simpa [List.nodup_append] using ⟨h, hx⟩

theorem mem_setDel (s : List String) (x a : String) :
    a ∈ setDel s x ↔ a ∈ s ∧ a ≠ x := by
  induction s with
  | nil => simp [setDel]
  | cons y rest ih =>
    by_cases hy : y = x
    · rw [setDel, if_pos hy, ih, List.mem_cons]
      constructor
      · rintro ⟨ha, hne⟩
        exact ⟨Or.inr ha, hne⟩
      · rintro ⟨rfl | ha, hne⟩
        · exact absurd hy hne
        · exact ⟨ha, hne⟩
    · rw [setDel, if_neg hy, List.mem_cons, List.mem_cons, ih]
      constructor
      · rintro (rfl | ⟨ha, hne⟩)
        · exact ⟨Or.inl rfl, hy⟩
        · exact ⟨Or.inr ha, hne⟩
      · rintro ⟨rfl | ha, hne⟩
        · exact Or.inl rfl
        · exact Or.inr ⟨ha, hne⟩

theorem setDel_nodup (s : List String) (x : String) (h : s.Nodup) :
    (setDel s x).Nodup := by
  induction s with
  | nil => simp [setDel]
  | cons y rest ih =>
    rw [List.nodup_cons] at h
    by_cases hy : y = x
    · simpa [setDel, hy] using ih h.2
    · rw [setDel, if_neg hy, List.nodup_cons]
      refine ⟨fun hmem => ?_, ih h.2⟩
      exact h.1 ((mem_setDel rest x y).mp hmem).1

/-! ### History-ring lemmas -/

theorem ringPush_length_le (h : List Message) (m : Message) (hle : h.length ≤ 100) :
    (ringPush h m).length ≤ 100 := by
  rw [ringPush]
  split
  · simpa using hle
  · rename_i hc
    simp only [List.length_append, List.length_cons, List.length_nil] at hc ⊢
    omega

theorem ringPush_eq_drop (h : List Message) (m : Message) (hle : h.length ≤ 100) :
    ringPush h m = (h ++ [m]).drop (h.length + 1 - 100) := by
  rw [ringPush]
  split
  · rename_i hc
    simp only [List.length_append, List.length_cons, List.length_nil] at hc
    have h100 : h.length = 100 := by omega
    rw [← List.drop_one]
    congr 1
    omega
  · rename_i hc
    simp only [List.length_append, List.length_cons, List.length_nil] at hc
    have : h.length + 1 - 100 = 0 := by omega
    rw [this, List.drop_zero]

set_option maxRecDepth 4000 in
theorem foldl_ringPush (msgs : List Message) :
    ∀ h : List Message, h.length ≤ 100 →
      List.foldl ringPush h msgs = (h ++ msgs).drop ((h ++ msgs).length - 100) := by
  induction msgs with
  | nil =>
    intro h hle
    have : h.length - 100 = 0 := by omega
    simp [this]
  | cons m ms ih =>
    intro h hle
    rw [List.foldl_cons, ih (ringPush h m) (ringPush_length_le h m hle),
      ringPush_eq_drop h m hle]
    have hd : h.length + 1 - 100 ≤ (h ++ [m]).length := by
      simp only [List.length_append, List.length_cons, List.length_nil]
      omega
    rw [← List.drop_append_of_le_length hd]
    rw [List.drop_drop]
    have hsplit : h ++ m :: ms = (h ++ [m]) ++ ms := by simp
    rw [hsplit]
    congr 1
    simp only [List.length_append, List.length_drop, List.length_cons, List.length_nil]
    omega

/-! ### Trim lemmas -/

theorem head?_dropWhile_false {α : Type} (p : α → Bool) (l : List α) (a : α)
    (h : (l.dropWhile p).head? = some a) : p a = false := by
  induction l with
  | nil => simp [List.dropWhile] at h
  | cons x xs ih =>
    by_cases hx : p x
    · rw [List.dropWhile_cons_of_pos hx] at h
      exact ih h
    · rw [List.dropWhile_cons_of_neg hx] at h
      simp at h
      rw [← h]
      exact Bool.not_eq_true _ |>.mp hx

theorem getLast?_dropWhile {α : Type} (p : α → Bool) (l : List α)
    (hne : l.dropWhile p ≠ []) : (l.dropWhile p).getLast? = l.getLast? := by
  induction l with
  | nil => simp [List.dropWhile] at hne
  | cons x xs ih =>
    by_cases hx : p x
    · rw [List.dropWhile_cons_of_pos hx] at hne ⊢
      have hxs : xs ≠ [] := by
        intro hn
        rw [hn] at hne
        simp [List.dropWhile] at hne
      rw [ih hne]
      cases xs with
      | nil => exact absurd rfl hxs
      | cons y ys => rw [List.getLast?_cons_cons]
    · rw [List.dropWhile_cons_of_neg hx]

/-- The trimmed character list never starts with a whitespace character. -/
theorem trimChars_head (l : List Char) (a : Char)
    (h : (trimChars l).head? = some a) : a.isWhitespace = false := by
  rw [trimChars, List.head?_reverse] at h
  have hne : (l.dropWhile Char.isWhitespace).reverse.dropWhile Char.isWhitespace ≠ [] := by
    intro hn
    rw [hn] at h
    simp at h
  rw [getLast?_dropWhile _ _ hne, List.getLast?_reverse] at h
  exact head?_dropWhile_false _ _ _ h

/-- The trimmed character list never ends with a whitespace character. -/
theorem trimChars_getLast (l : List Char) (a : Char)
    (h : (trimChars l).getLast? = some a) : a.isWhitespace = false := by
  rw [trimChars, List.getLast?_reverse] at h
  exact head?_dropWhile_false _ _ _ h

/-- A string with no leading and no trailing whitespace character. -/
def noEdgeWS (s : String) : Prop :=
  (∀ c, s.data.head? = some c → c.isWhitespace = false) ∧
  (∀ c, s.data.getLast? = some c → c.isWhitespace = false)

theorem jsTrim_noEdgeWS (s : String) : noEdgeWS (jsTrim s) :=
  ⟨fun c hc => trimChars_head s.data c hc,
   fun c hc => trimChars_getLast s.data c hc⟩

/-! ### Handler shape lemmas -/

theorem mset_mset_self {V : Type} (m : List (String × V)) (k : String) (v w : V) :
    mset (mset m k v) k w = mset m k w := by
  induction m with
  | nil => simp [mset]
  | cons p rest ih =>
    obtain ⟨k0, v0⟩ := p
    by_cases h0 : k0 = k
    · simp [mset, h0]
    · simp [mset, h0, ih]

theorem handleConnection_existing (s : ServerState) (id username room : String)
    (now : Nat) (m0 : List String) (hroom : mfind s.rooms room = some m0) :
    handleConnection s id username room now =
      (⟨mset s.users id (PresenceRecord.mk username room now),
        mset s.rooms room (setAdd m0 id),
        s.messageHistory⟩,
       [Emit.messageHistory id (sliceLast ((mfind s.messageHistory room).getD []) 50),
        Emit.userJoined room ((setAdd m0 id).filter (fun i => i ≠ id))
          username now (setAdd m0 id).length,
        Emit.userList room (setAdd m0 id)
          ((setAdd m0 id).filterMap fun sid =>
            (mfind (mset s.users id (PresenceRecord.mk username room now)) sid).map
              fun u => UserEntry.mk u.username u.joinedAt)]) := by
  simp [handleConnection, hroom, broadcastUserList, userListFor, roomMembers,
    mfind_mset_self]

theorem handleConnection_new (s : ServerState) (id username room : String)
    (now : Nat) (hroom : mfind s.rooms room = none) :
    handleConnection s id username room now =
      (⟨mset s.users id (PresenceRecord.mk username room now),
        mset s.rooms room [id],
        mset s.messageHistory room []⟩,
       [Emit.messageHistory id [],
        Emit.userJoined room ([id].filter (fun i => i ≠ id)) username now 1,
        Emit.userList room [id]
          ([id].filterMap fun sid =>
            (mfind (mset s.users id (PresenceRecord.mk username room now)) sid).map
              fun u => UserEntry.mk u.username u.joinedAt)]) := by
  simp [handleConnection, hroom, broadcastUserList, userListFor, roomMembers,
    mfind_mset_self, mset_mset_self, setAdd, sliceLast]

theorem handleSend_not_active (s : ServerState) (id : String) (d : Option String)
    (now : Nat) (hu : mfind s.users id = none) :
    handleSend s id d now = (s, []) := by
  simp [handleSend, hu]

theorem handleSend_empty (s : ServerState) (id : String) (u : PresenceRecord)
    (d : Option String) (now : Nat) (hu : mfind s.users id = some u)
    (h0 : (jsTrim (d.getD "")).length = 0) :
    handleSend s id d now = (s, []) := by
  simp [handleSend, hu, h0]

theorem handleSend_too_long (s : ServerState) (id : String) (u : PresenceRecord)
    (d : Option String) (now : Nat) (hu : mfind s.users id = some u)
    (h1 : (jsTrim (d.getD "")).length > 1000) :
    handleSend s id d now = (s, [Emit.error id "Message too long"]) := by
  have h0 : ¬ (jsTrim (d.getD "")).length = 0 := by omega
  simp [handleSend, hu, h0, h1]

theorem handleSend_no_ring (s : ServerState) (id : String) (u : PresenceRecord)
    (d : Option String) (now : Nat) (hu : mfind s.users id = some u)
    (h0 : (jsTrim (d.getD "")).length ≠ 0)
    (h1 : ¬ (jsTrim (d.getD "")).length > 1000)
    (hr : mfind s.messageHistory u.room = none) :
    handleSend s id d now = (s, [Emit.error id "Failed to send message"]) := by
  simp [handleSend, hu, h0, h1, hr]

theorem handleSend_ok (s : ServerState) (id : String) (u : PresenceRecord)
    (d : Option String) (now : Nat) (history : List Message)
    (hu : mfind s.users id = some u)
    (h0 : (jsTrim (d.getD "")).length ≠ 0)
    (h1 : ¬ (jsTrim (d.getD "")).length > 1000)
    (hr : mfind s.messageHistory u.room = some history) :
    handleSend s id d now =
      (⟨s.users, s.rooms,
        mset s.messageHistory u.room
          (ringPush history
            ⟨id ++ "-" ++ toString now, u.username, jsTrim (d.getD ""), now, u.room⟩)⟩,
       [Emit.newMessage u.room (roomMembers s u.room)
          ⟨id ++ "-" ++ toString now, u.username, jsTrim (d.getD ""), now, u.room⟩]) := by
  simp [handleSend, hu, h0, h1, hr, roomMembers]

theorem handleDisconnect_unknown (s : ServerState) (id : String) (now : Nat)
    (hu : mfind s.users id = none) :
    handleDisconnect s id now = (s, []) := by
  simp [handleDisconnect, hu, mdel_of_mfind_none s.users id hu]

theorem handleDisconnect_last (s : ServerState) (id : String) (now : Nat)
    (user : PresenceRecord) (members : List String)
    (hu : mfind s.users id = some user)
    (hm : mfind s.rooms user.room = some members)
    (hempty : (setDel members id).length = 0) :
    handleDisconnect s id now =
      (⟨mdel s.users id, mdel s.rooms user.room, mdel s.messageHistory user.room⟩,
       [Emit.userLeft user.room [] user.username now 0,
        Emit.userList user.room [] []]) := by
  simp [handleDisconnect, hu, hm, hempty, broadcastUserList, userListFor, roomMembers,
    mfind_mdel_self]

theorem handleDisconnect_some (s : ServerState) (id : String) (now : Nat)
    (user : PresenceRecord) (members : List String)
    (hu : mfind s.users id = some user)
    (hm : mfind s.rooms user.room = some members)
    (hne : (setDel members id).length ≠ 0) :
    handleDisconnect s id now =
      (⟨mdel s.users id, mset s.rooms user.room (setDel members id), s.messageHistory⟩,
       [Emit.userLeft user.room (setDel members id) user.username now
          (setDel members id).length,
        Emit.userList user.room (setDel members id)
          ((setDel members id).filterMap fun sid =>
            (mfind s.users sid).map fun u => UserEntry.mk u.username u.joinedAt)]) := by
  simp [handleDisconnect, hu, hm, hne, broadcastUserList, userListFor, roomMembers,
    mfind_mset_self]

theorem handleConnection_emits (s : ServerState) (id username room : String)
    (now : Nat) :
    (handleConnection s id username room now).2 =
      [Emit.messageHistory id
         (sliceLast
           ((mfind (handleConnection s id username room now).1.messageHistory room).getD [])
           50),
       Emit.userJoined room
         ((roomMembers (handleConnection s id username room now).1 room).filter
           (fun i => i ≠ id))
         username now
         (roomMembers (handleConnection s id username room now).1 room).length,
       broadcastUserList (handleConnection s id username room now).1 room] := rfl

theorem handleTyping_state (s : ServerState) (id : String) :
    (handleTyping s id).1 = s := by
  rcases h : mfind s.users id with _ | u <;> simp [handleTyping, h]

theorem handleTyping_not_active (s : ServerState) (id : String)
    (hu : mfind s.users id = none) : handleTyping s id = (s, []) := by
  simp [handleTyping, hu]

theorem handleTyping_active (s : ServerState) (id : String) (u : PresenceRecord)
    (hu : mfind s.users id = some u) :
    handleTyping s id =
      (s, [Emit.userTyping u.room ((roomMembers s u.room).filter (fun i => i ≠ id))
            u.username]) := by
  simp [handleTyping, hu]

theorem handleStopTyping_not_active (s : ServerState) (id : String)
    (hu : mfind s.users id = none) : handleStopTyping s id = (s, []) := by
  simp [handleStopTyping, hu]

theorem handleStopTyping_active (s : ServerState) (id : String) (u : PresenceRecord)
    (hu : mfind s.users id = some u) :
    handleStopTyping s id =
      (s, [Emit.userStopTyping u.room ((roomMembers s u.room).filter (fun i => i ≠ id))
            u.username]) := by
  simp [handleStopTyping, hu]

theorem handleStopTyping_state (s : ServerState) (id : String) :
    (handleStopTyping s id).1 = s := by
  rcases h : mfind s.users id with _ | u <;> simp [handleStopTyping, h]

theorem step_connect_ok (s : ServerState) (id : String) (u? r? : Option String)
    (now : Nat) (un rm : String) (h : admission u? r? = Except.ok (un, rm)) :
    step s (Event.connect id u? r? now) = handleConnection s id un rm now := by
  simp [step, h]

theorem step_connect_err (s : ServerState) (id : String) (u? r? : Option String)
    (now : Nat) (er : AdmissionError) (h : admission u? r? = Except.error er) :
    step s (Event.connect id u? r? now) = (s, []) := by
  simp [step, h]

theorem step_send (s : ServerState) (id : String) (d : Option String) (now : Nat) :
    step s (Event.sendMessage id d now) = handleSend s id d now := rfl

theorem step_typing (s : ServerState) (id : String) :
    step s (Event.typing id) = handleTyping s id := rfl

theorem step_stopTyping (s : ServerState) (id : String) :
    step s (Event.stopTyping id) = handleStopTyping s id := rfl

theorem step_disconnect (s : ServerState) (id : String) (now : Nat) :
    step s (Event.disconnect id now) = handleDisconnect s id now := rfl

/-! ### The inductive invariant of reachable states -/

/-- The state invariant maintained across event-handler executions: rooms in
the registry have non-empty member sets; the history map and the registry hold
exactly the same room keys; every presence record's owner is a member of its
room; every member of a room set has a presence record naming that room;
member sets are duplicate-free; history rings hold at most 100 entries. -/
structure Inv (s : ServerState) : Prop where
  rooms_nonempty : ∀ r m, mfind s.rooms r = some m → m ≠ []
  hist_iff_rooms : ∀ r, (mfind s.messageHistory r).isSome ↔ (mfind s.rooms r).isSome
  user_in_room : ∀ i u, mfind s.users i = some u →
    ∃ m, mfind s.rooms u.room = some m ∧ i ∈ m
  member_user : ∀ r m, mfind s.rooms r = some m →
    ∀ i ∈ m, ∃ u, mfind s.users i = some u ∧ u.room = r
  members_nodup : ∀ r m, mfind s.rooms r = some m → m.Nodup
  hist_bound : ∀ r h, mfind s.messageHistory r = some h → h.length ≤ 100

theorem inv_init : Inv initState := by
  constructor <;> intro r <;> simp [initState, mfind]

theorem inv_handleConnection (s : ServerState) (hi : Inv s)
    (id username room : String) (now : Nat) (hfresh : mfind s.users id = none) :
    Inv (handleConnection s id username room now).1 := by
  have hid_of : ∀ i u, mfind s.users i = some u → i ≠ id := by
    intro i u hu hieq
    rw [hieq, hfresh] at hu
    exact Option.noConfusion hu
  rcases hroom : mfind s.rooms room with _ | m0
  · -- first join: room entry and history ring created together
    rw [handleConnection_new s id username room now hroom]
    constructor
    · intro r m hm
      by_cases hr : r = room
      · rw [hr, mfind_mset_self] at hm
        obtain rfl := Option.some.inj hm
        simp
      · rw [mfind_mset_ne _ _ _ _ hr] at hm
        exact hi.rooms_nonempty r m hm
    · intro r
      by_cases hr : r = room
      · rw [hr, mfind_mset_self, mfind_mset_self]
        simp
      · rw [mfind_mset_ne _ _ _ _ hr, mfind_mset_ne _ _ _ _ hr]
        exact hi.hist_iff_rooms r
    · intro i u hu
      by_cases hid : i = id
      · rw [hid, mfind_mset_self] at hu
        obtain rfl := Option.some.inj hu
        exact ⟨[id], mfind_mset_self _ _ _, by simp [hid]⟩
      · rw [mfind_mset_ne _ _ _ _ hid] at hu
        obtain ⟨m, hm, him⟩ := hi.user_in_room i u hu
        by_cases hur : u.room = room
        · rw [hur, hroom] at hm
          exact Option.noConfusion hm
        · exact ⟨m, by rw [mfind_mset_ne _ _ _ _ hur]; exact hm, him⟩
    · intro r m hm i him
      by_cases hr : r = room
      · rw [hr] at hm ⊢
        rw [mfind_mset_self] at hm
        obtain rfl := Option.some.inj hm
        have hieq : i = id := by simpa using him
        rw [hieq]
        exact ⟨PresenceRecord.mk username room now, mfind_mset_self _ _ _, rfl⟩
      · rw [mfind_mset_ne _ _ _ _ hr] at hm
        obtain ⟨u, hu, hur⟩ := hi.member_user r m hm i him
        exact ⟨u, by rw [mfind_mset_ne _ _ _ _ (hid_of i u hu)]; exact hu, hur⟩
    · intro r m hm
      by_cases hr : r = room
      · rw [hr, mfind_mset_self] at hm
        obtain rfl := Option.some.inj hm
        simp
      · rw [mfind_mset_ne _ _ _ _ hr] at hm
        exact hi.members_nodup r m hm
    · intro r h hh
      by_cases hr : r = room
      · rw [hr, mfind_mset_self] at hh
        obtain rfl := Option.some.inj hh
        simp
      · rw [mfind_mset_ne _ _ _ _ hr] at hh
        exact hi.hist_bound r h hh
  · -- join into an existing room
    rw [handleConnection_existing s id username room now m0 hroom]
    constructor
    · intro r m hm
      by_cases hr : r = room
      · rw [hr, mfind_mset_self] at hm
        obtain rfl := Option.some.inj hm
        exact setAdd_ne_nil m0 id
      · rw [mfind_mset_ne _ _ _ _ hr] at hm
        exact hi.rooms_nonempty r m hm
    · intro r
      by_cases hr : r = room
      · rw [hr, mfind_mset_self]
        have hsome : (mfind s.messageHistory room).isSome :=
          (hi.hist_iff_rooms room).mpr (by rw [hroom]; rfl)
        simp [hsome]
      · rw [mfind_mset_ne _ _ _ _ hr]
        exact hi.hist_iff_rooms r
    · intro i u hu
      by_cases hid : i = id
      · rw [hid, mfind_mset_self] at hu
        obtain rfl := Option.some.inj hu
        exact ⟨setAdd m0 id, mfind_mset_self _ _ _,
          (mem_setAdd m0 id i).mpr (Or.inr hid)⟩
      · rw [mfind_mset_ne _ _ _ _ hid] at hu
        obtain ⟨m, hm, him⟩ := hi.user_in_room i u hu
        by_cases hur : u.room = room
        · rw [hur] at hm ⊢
          rw [hroom] at hm
          obtain rfl := Option.some.inj hm
          exact ⟨setAdd m0 id, mfind_mset_self _ _ _,
            (mem_setAdd m0 id i).mpr (Or.inl him)⟩
        · exact ⟨m, by rw [mfind_mset_ne _ _ _ _ hur]; exact hm, him⟩
    · intro r m hm i him
      by_cases hr : r = room
      · rw [hr] at hm ⊢
        rw [mfind_mset_self] at hm
        obtain rfl := Option.some.inj hm
        rcases (mem_setAdd m0 id i).mp him with him0 | hieq
        · obtain ⟨u, hu, hur⟩ := hi.member_user room m0 hroom i him0
          exact ⟨u, by rw [mfind_mset_ne _ _ _ _ (hid_of i u hu)]; exact hu, hur⟩
        · rw [hieq]
          exact ⟨PresenceRecord.mk username room now, mfind_mset_self _ _ _, rfl⟩
      · rw [mfind_mset_ne _ _ _ _ hr] at hm
        obtain ⟨u, hu, hur⟩ := hi.member_user r m hm i him
        exact ⟨u, by rw [mfind_mset_ne _ _ _ _ (hid_of i u hu)]; exact hu, hur⟩
    · intro r m hm
      by_cases hr : r = room
      · rw [hr, mfind_mset_self] at hm
        obtain rfl := Option.some.inj hm
        exact setAdd_nodup m0 id (hi.members_nodup room m0 hroom)
      · rw [mfind_mset_ne _ _ _ _ hr] at hm
        exact hi.members_nodup r m hm
    · exact hi.hist_bound

theorem inv_handleSend (s : ServerState) (hi : Inv s) (id : String)
    (d : Option String) (now : Nat) : Inv (handleSend s id d now).1 := by
  rcases hu : mfind s.users id with _ | u
  · rw [handleSend_not_active s id d now hu]
    exact hi
  · by_cases h0 : (jsTrim (d.getD "")).length = 0
    · rw [handleSend_empty s id u d now hu h0]
      exact hi
    · by_cases h1 : (jsTrim (d.getD "")).length > 1000
      · rw [handleSend_too_long s id u d now hu h1]
        exact hi
      · rcases hr : mfind s.messageHistory u.room with _ | history
        · rw [handleSend_no_ring s id u d now hu h0 h1 hr]
          exact hi
        · rw [handleSend_ok s id u d now history hu h0 h1 hr]
          constructor
          · exact hi.rooms_nonempty
          · intro r
            by_cases hru : r = u.room
            · rw [hru, mfind_mset_self]
              have hsome : (mfind s.rooms u.room).isSome :=
                (hi.hist_iff_rooms u.room).mp (by rw [hr]; rfl)
              simp [hsome]
            · rw [mfind_mset_ne _ _ _ _ hru]
              exact hi.hist_iff_rooms r
          · exact hi.user_in_room
          · exact hi.member_user
          · exact hi.members_nodup
          · intro r h hh
            by_cases hru : r = u.room
            · rw [hru, mfind_mset_self] at hh
              obtain rfl := Option.some.inj hh
              exact ringPush_length_le history _ (hi.hist_bound u.room history hr)
            · rw [mfind_mset_ne _ _ _ _ hru] at hh
              exact hi.hist_bound r h hh

theorem inv_handleDisconnect (s : ServerState) (hi : Inv s) (id : String)
    (now : Nat) : Inv (handleDisconnect s id now).1 := by
  rcases hu : mfind s.users id with _ | user
  · rw [handleDisconnect_unknown s id now hu]
    exact hi
  · obtain ⟨members, hm, hidm⟩ := hi.user_in_room id user hu
    by_cases hempty : (setDel members id).length = 0
    · -- last member leaves: room entry and history ring deleted together
      have hnil : setDel members id = [] := List.length_eq_zero.mp hempty
      rw [handleDisconnect_last s id now user members hu hm hempty]
      constructor
      · intro r m hm'
        by_cases hr : r = user.room
        · rw [hr, mfind_mdel_self] at hm'
          exact Option.noConfusion hm'
        · rw [mfind_mdel_ne _ _ _ hr] at hm'
          exact hi.rooms_nonempty r m hm'
      · intro r
        by_cases hr : r = user.room
        · rw [hr, mfind_mdel_self, mfind_mdel_self]
          exact Iff.rfl
        · rw [mfind_mdel_ne _ _ _ hr, mfind_mdel_ne _ _ _ hr]
          exact hi.hist_iff_rooms r
      · intro i u hu'
        have hid : i ≠ id := by
          intro hieq
          rw [hieq, mfind_mdel_self] at hu'
          exact Option.noConfusion hu'
        rw [mfind_mdel_ne _ _ _ hid] at hu'
        obtain ⟨m, hm2, him⟩ := hi.user_in_room i u hu'
        by_cases hur : u.room = user.room
        · rw [hur, hm] at hm2
          obtain rfl := Option.some.inj hm2
          exfalso
          have hmem : i ∈ setDel members id := (mem_setDel members id i).mpr ⟨him, hid⟩
          rw [hnil] at hmem
          exact (List.not_mem_nil i) hmem
        · exact ⟨m, by rw [mfind_mdel_ne _ _ _ hur]; exact hm2, him⟩
      · intro r m hm' i him
        by_cases hr : r = user.room
        · rw [hr, mfind_mdel_self] at hm'
          exact Option.noConfusion hm'
        · rw [mfind_mdel_ne _ _ _ hr] at hm'
          obtain ⟨u, hu2, hur⟩ := hi.member_user r m hm' i him
          have hid : i ≠ id := by
            intro hieq
            rw [hieq, hu] at hu2
            obtain rfl := Option.some.inj hu2
            exact hr hur.symm
          exact ⟨u, by rw [mfind_mdel_ne _ _ _ hid]; exact hu2, hur⟩
      · intro r m hm'
        by_cases hr : r = user.room
        · rw [hr, mfind_mdel_self] at hm'
          exact Option.noConfusion hm'
        · rw [mfind_mdel_ne _ _ _ hr] at hm'
          exact hi.members_nodup r m hm'
      · intro r h hh
        by_cases hr : r = user.room
        · rw [hr, mfind_mdel_self] at hh
          exact Option.noConfusion hh
        · rw [mfind_mdel_ne _ _ _ hr] at hh
          exact hi.hist_bound r h hh
    · -- members remain: member set shrinks in place
      rw [handleDisconnect_some s id now user members hu hm hempty]
      constructor
      · intro r m hm'
        by_cases hr : r = user.room
        · rw [hr, mfind_mset_self] at hm'
          obtain rfl := Option.some.inj hm'
          intro h
          exact hempty (by rw [h]; rfl)
        · rw [mfind_mset_ne _ _ _ _ hr] at hm'
          exact hi.rooms_nonempty r m hm'
      · intro r
        by_cases hr : r = user.room
        · rw [hr, mfind_mset_self]
          have hsome : (mfind s.messageHistory user.room).isSome :=
            (hi.hist_iff_rooms user.room).mpr (by rw [hm]; rfl)
          simp [hsome]
        · rw [mfind_mset_ne _ _ _ _ hr]
          exact hi.hist_iff_rooms r
      · intro i u hu'
        have hid : i ≠ id := by
          intro hieq
          rw [hieq, mfind_mdel_self] at hu'
          exact Option.noConfusion hu'
        rw [mfind_mdel_ne _ _ _ hid] at hu'
        obtain ⟨m, hm2, him⟩ := hi.user_in_room i u hu'
        by_cases hur : u.room = user.room
        · rw [hur] at hm2 ⊢
          rw [hm] at hm2
          obtain rfl := Option.some.inj hm2
          exact ⟨setDel members id, mfind_mset_self _ _ _,
            (mem_setDel members id i).mpr ⟨him, hid⟩⟩
        · exact ⟨m, by rw [mfind_mset_ne _ _ _ _ hur]; exact hm2, him⟩
      · intro r m hm' i him
        by_cases hr : r = user.room
        · rw [hr] at hm' ⊢
          rw [mfind_mset_self] at hm'
          obtain rfl := Option.some.inj hm'
          obtain ⟨him0, hid⟩ := (mem_setDel members id i).mp him
          obtain ⟨u, hu2, hur⟩ := hi.member_user user.room members hm i him0
          exact ⟨u, by rw [mfind_mdel_ne _ _ _ hid]; exact hu2, hur⟩
        · rw [mfind_mset_ne _ _ _ _ hr] at hm'
          obtain ⟨u, hu2, hur⟩ := hi.member_user r m hm' i him
          have hid : i ≠ id := by
            intro hieq
            rw [hieq, hu] at hu2
            obtain rfl := Option.some.inj hu2
            exact hr hur.symm
          exact ⟨u, by rw [mfind_mdel_ne _ _ _ hid]; exact hu2, hur⟩
      · intro r m hm'
        by_cases hr : r = user.room
        · rw [hr, mfind_mset_self] at hm'
          obtain rfl := Option.some.inj hm'
          exact setDel_nodup members id (hi.members_nodup user.room members hm)
        · rw [mfind_mset_ne _ _ _ _ hr] at hm'
          exact hi.members_nodup r m hm'
      · exact hi.hist_bound

/-- Every reachable state satisfies the invariant. -/
theorem reachable_inv {s : ServerState} (hs : Reachable s) : Inv s := by
  induction hs with
  | init => exact inv_init
  | @next t e hs ha ih =>
    cases e with
    | connect id u? r? now =>
      have ha' : mfind t.users id = none := ha
      rcases hadm : admission u? r? with er | ⟨un, rm⟩
      · rw [step_connect_err t id u? r? now er hadm]
        exact ih
      · rw [step_connect_ok t id u? r? now un rm hadm]
        exact inv_handleConnection t ih id un rm now ha'
    | sendMessage id d now => exact inv_handleSend t ih id d now
    | typing id =>
      show Inv (handleTyping t id).1
      rw [handleTyping_state t id]
      exact ih
    | stopTyping id =>
      show Inv (handleStopTyping t id).1
      rw [handleStopTyping_state t id]
      exact ih
    | disconnect id now => exact inv_handleDisconnect t ih id now

/-! ### Roster exactness -/

theorem forall2_userList (users : List (String × PresenceRecord)) (m : List String)
    (H : ∀ i ∈ m, ∃ u, mfind users i = some u) :
    List.Forall₂
      (fun i en => ∃ u, mfind users i = some u ∧ en = UserEntry.mk u.username u.joinedAt)
      m (m.filterMap fun sid =>
          (mfind users sid).map fun u => UserEntry.mk u.username u.joinedAt) := by
  induction m with
  | nil => exact List.Forall₂.nil
  | cons i m' ih =>
    obtain ⟨u, hu⟩ := H i (List.mem_cons_self i m')
    simp only [List.filterMap_cons, hu, Option.map_some']
    exact List.Forall₂.cons ⟨u, hu, rfl⟩
      (ih fun j hj => H j (List.mem_cons_of_mem i hj))

/-- In any state satisfying the invariant, the `user_list` payload pairs the
room's member list one-to-one, in order, with the members' presence data. -/
theorem roster_exact (t : ServerState) (ht : Inv t) (r : String) :
    List.Forall₂
      (fun i en => ∃ u, mfind t.users i = some u ∧ en = UserEntry.mk u.username u.joinedAt)
      (roomMembers t r) (userListFor t r) := by
  rw [userListFor]
  apply forall2_userList
  intro i hi2
  rcases hm : mfind t.rooms r with _ | m
  · rw [roomMembers, hm] at hi2
    simp at hi2
  · rw [roomMembers, hm] at hi2
    obtain ⟨u, hu, _⟩ := ht.member_user r m hm i (by simpa using hi2)
    exact ⟨u, hu⟩

/-! ### Concrete states used by the witnesses -/

/-- The state after one connection "s1" (alice) has joined room "main". -/
def stateA : ServerState :=
  (step initState (Event.connect "s1" (some "alice") (some "main") 0)).1

theorem reachable_stateA : Reachable stateA :=
  Reachable.next (Event.connect "s1" (some "alice") (some "main") 0)
    Reachable.init rfl

theorem stateA_eq :
    stateA = ⟨[("s1", PresenceRecord.mk "alice" "main" 0)],
              [("main", ["s1"])], [("main", [])]⟩ := by rfl

/-- A 101-character sample message for the ring witness. -/
def sampleMsg : Message := ⟨"m", "alice", "hi", 0, "main"⟩

/-- An over-length (1001-character) message body. -/
def longBody : String := "".pushn 'a' 1001

/-- A username of raw length 51 that trims to a single character. -/
def longName : String := "a".pushn ' ' 50

/-! ### Claims -/

/-- C1: at every point between event-handler executions, a room id is present
in the Room Registry iff its member count is positive, and the History Ring
has an entry for a room id iff the Room Registry does (created by the first
join and deleted by the last leave, together). -/
theorem claim1_room_registry_iff (s : ServerState) (hs : Reachable s) (r : String) :
    ((mfind s.rooms r).isSome ↔ 0 < memberCount s r) ∧
    ((mfind s.messageHistory r).isSome ↔ (mfind s.rooms r).isSome) := by
  have hi := reachable_inv hs
  refine ⟨⟨?_, ?_⟩, hi.hist_iff_rooms r⟩
  · intro h
    rcases hm : mfind s.rooms r with _ | m
    · rw [hm] at h
      simp at h
    · have hne := hi.rooms_nonempty r m hm
      rw [memberCount, roomMembers, hm]
      simpa [List.length_pos] using hne
  · intro h
    rcases hm : mfind s.rooms r with _ | m
    · rw [memberCount, roomMembers, hm] at h
      simp at h
    · rfl

theorem claim1_witness :
    ((mfind stateA.rooms "main").isSome ↔ 0 < memberCount stateA "main") ∧
    ((mfind stateA.messageHistory "main").isSome ↔ (mfind stateA.rooms "main").isSome) :=
  claim1_room_registry_iff stateA reachable_stateA "main"

set_option maxRecDepth 4000 in
/-- C2: over any sequence of more than 100 sends, the ring length never
exceeds 100 at any intermediate point, the final ring holds exactly the last
100 messages in send order (strict FIFO eviction of the oldest), and the
50-message slice delivered to a subsequent joiner is exactly the last 50
messages in send order, most-recent-last. -/
theorem claim2_history_ring_fifo (msgs : List Message) (hN : 100 < msgs.length) :
    (∀ p q : List Message, msgs = p ++ q →
      (List.foldl ringPush [] p).length ≤ 100) ∧
    List.foldl ringPush [] msgs = msgs.drop (msgs.length - 100) ∧
    sliceLast (List.foldl ringPush [] msgs) 50 = msgs.drop (msgs.length - 50) := by
  have hfold : ∀ l : List Message,
      List.foldl ringPush [] l = l.drop (l.length - 100) := by
    intro l
    simpa using foldl_ringPush l [] (by simp)
  refine ⟨?_, hfold msgs, ?_⟩
  · intro p q hpq
    rw [hfold p, List.length_drop]
    omega
  · rw [hfold msgs, sliceLast, List.length_drop, List.drop_drop]
    congr 1
    omega

theorem claim2_witness :
    (∀ p q : List Message, List.replicate 101 sampleMsg = p ++ q →
      (List.foldl ringPush [] p).length ≤ 100) ∧
    List.foldl ringPush [] (List.replicate 101 sampleMsg) =
      (List.replicate 101 sampleMsg).drop ((List.replicate 101 sampleMsg).length - 100) ∧
    sliceLast (List.foldl ringPush [] (List.replicate 101 sampleMsg)) 50 =
      (List.replicate 101 sampleMsg).drop ((List.replicate 101 sampleMsg).length - 50) :=
  claim2_history_ring_fifo (List.replicate 101 sampleMsg) (by simp)

/-- C3 counterexample: the source (line 57) checks the length of the raw
username, not of the trimmed one.  `longName` ("a" followed by 50 spaces)
trims to one character, yet admission rejects it with `UsernameTooLong`,
contradicting both "UsernameTooLong exactly when the trimmed username exceeds
50 characters" and "admission succeeds for every username that is non-empty
and at most 50 characters after trimming". -/
theorem claim3_counterexample :
    (jsTrim longName).length = 1 ∧ longName.length = 51 ∧
    admission (some longName) (some "general") =
      Except.error AdmissionError.usernameTooLong := by
  refine ⟨by decide, by decide, rfl⟩

/-- C3 (amended): `InvalidUsername` exactly when the username is absent or
trims to empty; `UsernameTooLong` exactly when the username trims non-empty
but its RAW (untrimmed) length exceeds 50; every username that trims
non-empty and has raw length at most 50 is admitted, with the trimmed
username free of leading and trailing whitespace. -/
theorem claim3_admission_rules (u? r? : Option String) :
    (admission u? r? = Except.error AdmissionError.invalidUsername ↔
      (u? = none ∨ ∃ u, u? = some u ∧ (jsTrim u).length = 0)) ∧
    (admission u? r? = Except.error AdmissionError.usernameTooLong ↔
      (∃ u, u? = some u ∧ (jsTrim u).length ≠ 0 ∧ u.length > 50)) ∧
    (∀ u, u? = some u → (jsTrim u).length ≠ 0 → u.length ≤ 50 →
      ∃ nr, admission u? r? = Except.ok (jsTrim u, nr) ∧ noEdgeWS (jsTrim u)) := by
  rcases u? with _ | u
  · refine ⟨by simp [admission], by simp [admission], ?_⟩
    intro u hu
    exact absurd hu (by simp)
  · by_cases h0 : (jsTrim u).length = 0
    · refine ⟨by simp [admission, h0], by simp [admission, h0], ?_⟩
      intro u' hu' h0'
      rw [Option.some.inj hu'] at h0
      exact absurd h0 h0'
    · by_cases h1 : u.length > 50
      · refine ⟨by simp [admission, h0, h1], ?_, ?_⟩
        · simp [admission, h0, h1]
        · intro u' hu' h0' h1'
          obtain rfl := Option.some.inj hu'
          omega
      · refine ⟨by simp [admission, h0, h1], by simp [admission, h0, h1], ?_⟩
        intro u' hu' h0' h1'
        obtain rfl := Option.some.inj hu'
        refine ⟨jsTrim (match r? with
          | none => "general"
          | some r => if r = "" then "general" else r), ?_, jsTrim_noEdgeWS u⟩
        simp [admission, h0, h1]

theorem claim3_witness :
    ∃ nr, admission (some " bob ") (some "general") =
        Except.ok (jsTrim " bob ", nr) ∧ noEdgeWS (jsTrim " bob ") :=
  (claim3_admission_rules (some " bob ") (some "general")).2.2 " bob " rfl
    (by decide) (by decide)

/-- C4: a `send_message` from an Active connection whose body trims to empty
is silently dropped (no emission, no state change); one whose body exceeds
1000 characters answers `error{Message too long}` to the sender only, with no
broadcast and no state change. -/
theorem claim4_send_validation (s : ServerState) (id : String) (u : PresenceRecord)
    (body : String) (now : Nat) (hu : mfind s.users id = some u) :
    ((jsTrim body).length = 0 → handleSend s id (some body) now = (s, [])) ∧
    (1000 < (jsTrim body).length →
      handleSend s id (some body) now = (s, [Emit.error id "Message too long"])) := by
  constructor
  · intro h0
    exact handleSend_empty s id u (some body) now hu h0
  · intro h1
    exact handleSend_too_long s id u (some body) now hu h1

theorem claim4_witness :
    (((jsTrim longBody).length = 0 →
        handleSend stateA "s1" (some longBody) 5 = (stateA, [])) ∧
     (1000 < (jsTrim longBody).length →
        handleSend stateA "s1" (some longBody) 5 =
          (stateA, [Emit.error "s1" "Message too long"]))) :=
  claim4_send_validation stateA "s1" (PresenceRecord.mk "alice" "main" 0) longBody 5
    (by rw [stateA_eq]; rfl)

/-- C5: a valid send (body trims non-empty, at most 1000 characters) from an
Active connection builds a Message carrying the sender's username, the
trimmed body, the timestamp and the sender's room, appends it to that room's
History Ring, and broadcasts it as `new_message` to the room's full current
member list, which includes the sender. -/
theorem claim5_valid_send (s : ServerState) (id : String) (u : PresenceRecord)
    (body : String) (now : Nat) (hs : Reachable s) (hu : mfind s.users id = some u)
    (h0 : (jsTrim body).length ≠ 0) (h1 : (jsTrim body).length ≤ 1000) :
    ∃ history, mfind s.messageHistory u.room = some history ∧
      id ∈ roomMembers s u.room ∧
      handleSend s id (some body) now =
        (⟨s.users, s.rooms,
          mset s.messageHistory u.room
            (ringPush history
              ⟨id ++ "-" ++ toString now, u.username, jsTrim body, now, u.room⟩)⟩,
         [Emit.newMessage u.room (roomMembers s u.room)
            ⟨id ++ "-" ++ toString now, u.username, jsTrim body, now, u.room⟩]) := by
  have hi := reachable_inv hs
  obtain ⟨m, hm, him⟩ := hi.user_in_room id u hu
  have hsome : (mfind s.messageHistory u.room).isSome :=
    (hi.hist_iff_rooms u.room).mpr (by rw [hm]; rfl)
  rcases hh : mfind s.messageHistory u.room with _ | history
  · rw [hh] at hsome
    simp at hsome
  · refine ⟨history, rfl, ?_, ?_⟩
    · rw [roomMembers, hm]
      exact him
    · exact handleSend_ok s id u (some body) now history hu h0
        (show ¬ (jsTrim body).length > 1000 by omega) hh

theorem claim5_witness :
    ∃ history, mfind stateA.messageHistory "main" = some history ∧
      "s1" ∈ roomMembers stateA "main" ∧
      handleSend stateA "s1" (some "hi") 7 =
        (⟨stateA.users, stateA.rooms,
          mset stateA.messageHistory "main"
            (ringPush history ⟨"s1" ++ "-" ++ toString 7, "alice", jsTrim "hi", 7, "main"⟩)⟩,
         [Emit.newMessage "main" (roomMembers stateA "main")
            ⟨"s1" ++ "-" ++ toString 7, "alice", jsTrim "hi", 7, "main"⟩]) :=
  claim5_valid_send stateA "s1" (PresenceRecord.mk "alice" "main" 0) "hi" 7
    reachable_stateA (by rw [stateA_eq]; rfl) (by decide) (by decide)

/-- C6: disconnect teardown.  For an unknown connection id the handler is a
state-preserving no-op with no notifications (idempotent).  For a known
record, the id is removed from its room's member set, the room entry and its
history ring are deleted together exactly when the set empties, the presence
record is deleted, and the remaining members receive a `user_left` carrying
the post-leave member count followed by the rebroadcast full member list. -/
theorem claim6_disconnect_teardown (s : ServerState) (id : String) (now : Nat)
    (hs : Reachable s) :
    (mfind s.users id = none → handleDisconnect s id now = (s, [])) ∧
    (∀ user, mfind s.users id = some user →
      ∃ members, mfind s.rooms user.room = some members ∧ id ∈ members ∧
        mfind (handleDisconnect s id now).1.users id = none ∧
        (∀ i, i ≠ id →
          mfind (handleDisconnect s id now).1.users i = mfind s.users i) ∧
        ((setDel members id).length = 0 →
          mfind (handleDisconnect s id now).1.rooms user.room = none ∧
          mfind (handleDisconnect s id now).1.messageHistory user.room = none) ∧
        ((setDel members id).length ≠ 0 →
          mfind (handleDisconnect s id now).1.rooms user.room =
            some (setDel members id) ∧
          mfind (handleDisconnect s id now).1.messageHistory user.room =
            mfind s.messageHistory user.room) ∧
        (handleDisconnect s id now).2 =
          [Emit.userLeft user.room (setDel members id) user.username now
             (setDel members id).length,
           Emit.userList user.room (setDel members id)
             ((setDel members id).filterMap fun sid =>
               (mfind s.users sid).map fun u => UserEntry.mk u.username u.joinedAt)]) := by
  refine ⟨fun hu => handleDisconnect_unknown s id now hu, ?_⟩
  intro user hu
  have hi := reachable_inv hs
  obtain ⟨members, hm, hidm⟩ := hi.user_in_room id user hu
  refine ⟨members, hm, hidm, ?_⟩
  by_cases hempty : (setDel members id).length = 0
  · have hnil := List.length_eq_zero.mp hempty
    rw [handleDisconnect_last s id now user members hu hm hempty]
    refine ⟨mfind_mdel_self _ _, fun i hi2 => mfind_mdel_ne _ _ _ hi2,
      fun _ => ⟨mfind_mdel_self _ _, mfind_mdel_self _ _⟩,
      fun hc => absurd hempty hc, ?_⟩
    rw [hnil]
    simp
  · rw [handleDisconnect_some s id now user members hu hm hempty]
    exact ⟨mfind_mdel_self _ _, fun i hi2 => mfind_mdel_ne _ _ _ hi2,
      fun hc => absurd hc hempty, fun _ => ⟨mfind_mset_self _ _ _, rfl⟩, rfl⟩

theorem claim6_witness :
    (mfind stateA.users "s1" = none → handleDisconnect stateA "s1" 3 = (stateA, [])) ∧
    (∀ user, mfind stateA.users "s1" = some user →
      ∃ members, mfind stateA.rooms user.room = some members ∧ "s1" ∈ members ∧
        mfind (handleDisconnect stateA "s1" 3).1.users "s1" = none ∧
        (∀ i, i ≠ "s1" →
          mfind (handleDisconnect stateA "s1" 3).1.users i = mfind stateA.users i) ∧
        ((setDel members "s1").length = 0 →
          mfind (handleDisconnect stateA "s1" 3).1.rooms user.room = none ∧
          mfind (handleDisconnect stateA "s1" 3).1.messageHistory user.room = none) ∧
        ((setDel members "s1").length ≠ 0 →
          mfind (handleDisconnect stateA "s1" 3).1.rooms user.room =
            some (setDel members "s1") ∧
          mfind (handleDisconnect stateA "s1" 3).1.messageHistory user.room =
            mfind stateA.messageHistory user.room) ∧
        (handleDisconnect stateA "s1" 3).2 =
          [Emit.userLeft user.room (setDel members "s1") user.username 3
             (setDel members "s1").length,
           Emit.userList user.room (setDel members "s1")
             ((setDel members "s1").filterMap fun sid =>
               (mfind stateA.users sid).map fun u => UserEntry.mk u.username u.joinedAt)]) :=
  claim6_disconnect_teardown stateA "s1" 3 reachable_stateA

/-- C7: every `user_list` broadcast produced by an event-handler execution
from a reachable state pairs the post-state member list of its room
one-to-one and in insertion order with exactly those members' {username,
joinedAt} data — no stale entries for departed connections, none missing —
and is empty for a room absent from the registry.  The reconstruction
(`broadcastUserList`) is a pure read of the state. -/
theorem claim7_user_list_exact (s : ServerState) (e : Event) (hs : Reachable s)
    (ha : Allowed s e) (r : String) (recips : List String) (L : List UserEntry)
    (hmem : Emit.userList r recips L ∈ (step s e).2) :
    List.Forall₂
      (fun i en => ∃ u, mfind (step s e).1.users i = some u ∧
        en = UserEntry.mk u.username u.joinedAt)
      (roomMembers (step s e).1 r) L := by
  have hi := reachable_inv hs
  cases e with
  | connect id u? r? now =>
    have ha' : mfind s.users id = none := ha
    rcases hadm : admission u? r? with er | ⟨un, rm⟩
    · rw [step_connect_err s id u? r? now er hadm] at hmem
      simp at hmem
    · rw [step_connect_ok s id u? r? now un rm hadm] at hmem ⊢
      have hinv' : Inv (handleConnection s id un rm now).1 :=
        inv_handleConnection s hi id un rm now ha'
      rw [handleConnection_emits s id un rm now] at hmem
      simp only [List.mem_cons, List.not_mem_nil, or_false] at hmem
      rcases hmem with h | h | h
      · exact Emit.noConfusion h
      · exact Emit.noConfusion h
      · rw [broadcastUserList] at h
        injection h with h1 h2 h3
        subst h1
        subst h3
        exact roster_exact _ hinv' r
  | sendMessage id d now =>
    rw [step_send] at hmem ⊢
    rcases hu : mfind s.users id with _ | u
    · rw [handleSend_not_active s id d now hu] at hmem
      simp at hmem
    · by_cases h0 : (jsTrim (d.getD "")).length = 0
      · rw [handleSend_empty s id u d now hu h0] at hmem
        simp at hmem
      · by_cases h1 : (jsTrim (d.getD "")).length > 1000
        · rw [handleSend_too_long s id u d now hu h1] at hmem
          simp at hmem
        · rcases hr : mfind s.messageHistory u.room with _ | history
          · rw [handleSend_no_ring s id u d now hu h0 h1 hr] at hmem
            simp at hmem
          · rw [handleSend_ok s id u d now history hu h0 h1 hr] at hmem
            simp at hmem
  | typing id =>
    rw [step_typing] at hmem ⊢
    rcases hu : mfind s.users id with _ | u
    · rw [handleTyping_not_active s id hu] at hmem
      simp at hmem
    · rw [handleTyping_active s id u hu] at hmem
      simp at hmem
  | stopTyping id =>
    rw [step_stopTyping] at hmem ⊢
    rcases hu : mfind s.users id with _ | u
    · rw [handleStopTyping_not_active s id hu] at hmem
      simp at hmem
    · rw [handleStopTyping_active s id u hu] at hmem
      simp at hmem
  | disconnect id now =>
    rw [step_disconnect] at hmem ⊢
    rcases hu : mfind s.users id with _ | user
    · rw [handleDisconnect_unknown s id now hu] at hmem
      simp at hmem
    · obtain ⟨members, hm, hidm⟩ := hi.user_in_room id user hu
      by_cases hempty : (setDel members id).length = 0
      · rw [handleDisconnect_last s id now user members hu hm hempty] at hmem ⊢
        simp only [List.mem_cons, List.not_mem_nil, or_false] at hmem
        rcases hmem with h | h
        · exact Emit.noConfusion h
        · injection h with h1 h2 h3
          subst h1
          subst h3
          rw [roomMembers]
          dsimp only
          rw [mfind_mdel_self]
          exact List.Forall₂.nil
      · rw [handleDisconnect_some s id now user members hu hm hempty] at hmem ⊢
        simp only [List.mem_cons, List.not_mem_nil, or_false] at hmem
        rcases hmem with h | h
        · exact Emit.noConfusion h
        · injection h with h1 h2 h3
          subst h1
          subst h3
          rw [roomMembers]
          dsimp only
          rw [mfind_mset_self]
          have hcong :
              ((setDel members id).filterMap fun sid =>
                (mfind s.users sid).map fun u => UserEntry.mk u.username u.joinedAt) =
              ((setDel members id).filterMap fun sid =>
                (mfind (mdel s.users id) sid).map
                  fun u => UserEntry.mk u.username u.joinedAt) := by
            apply List.filterMap_congr
            intro i hi2
            rw [mfind_mdel_ne _ _ _ ((mem_setDel members id i).mp hi2).2]
          rw [hcong]
          apply forall2_userList
          intro i hi2
          obtain ⟨him, hid⟩ := (mem_setDel members id i).mp hi2
          obtain ⟨u, hu2, _⟩ := hi.member_user user.room members hm i him
          exact ⟨u, by rw [mfind_mdel_ne _ _ _ hid]; exact hu2⟩

theorem claim7_witness :
    List.Forall₂
      (fun i en => ∃ u,
        mfind (step stateA (Event.connect "s2" (some "bob") (some "main") 1)).1.users i =
          some u ∧ en = UserEntry.mk u.username u.joinedAt)
      (roomMembers (step stateA (Event.connect "s2" (some "bob") (some "main") 1)).1 "main")
      [UserEntry.mk "alice" 0, UserEntry.mk "bob" 1] :=
  claim7_user_list_exact stateA (Event.connect "s2" (some "bob") (some "main") 1)
    reachable_stateA rfl "main" ["s1", "s2"]
    [UserEntry.mk "alice" 0, UserEntry.mk "bob" 1] (by decide)

/-- C8: after the last member of a room disconnects, the room and its history
are gone, and a subsequent admitted join to the same room receives an empty
`message_history`: no message sent before the room's destruction survives. -/
theorem claim8_no_history_resurrection (s : ServerState) (id : String) (now : Nat)
    (user : PresenceRecord) (id2 un rm nu : String) (now2 : Nat)
    (hs : Reachable s) (hu : mfind s.users id = some user)
    (hsolo : mfind s.rooms user.room = some [id])
    (hadm : admission (some un) (some rm) = Except.ok (nu, user.room)) :
    mfind (step s (Event.disconnect id now)).1.rooms user.room = none ∧
    mfind (step s (Event.disconnect id now)).1.messageHistory user.room = none ∧
    ∃ rest,
      (step (step s (Event.disconnect id now)).1
        (Event.connect id2 (some un) (some rm) now2)).2 =
        Emit.messageHistory id2 [] :: rest := by
  have hempty : (setDel [id] id).length = 0 := by simp [setDel]
  have hstep : (step s (Event.disconnect id now)).1 =
      ⟨mdel s.users id, mdel s.rooms user.room, mdel s.messageHistory user.room⟩ := by
    rw [step_disconnect, handleDisconnect_last s id now user [id] hu hsolo hempty]
  rw [hstep]
  refine ⟨mfind_mdel_self _ _, mfind_mdel_self _ _, ?_⟩
  rw [step_connect_ok
    ⟨mdel s.users id, mdel s.rooms user.room, mdel s.messageHistory user.room⟩
    id2 (some un) (some rm) now2 nu user.room hadm]
  rw [handleConnection_new
    ⟨mdel s.users id, mdel s.rooms user.room, mdel s.messageHistory user.room⟩
    id2 nu user.room now2 (mfind_mdel_self _ _)]
  exact ⟨_, rfl⟩

theorem claim8_witness :
    mfind (step stateA (Event.disconnect "s1" 3)).1.rooms "main" = none ∧
    mfind (step stateA (Event.disconnect "s1" 3)).1.messageHistory "main" = none ∧
    ∃ rest,
      (step (step stateA (Event.disconnect "s1" 3)).1
        (Event.connect "s2" (some "bob") (some "main") 4)).2 =
        Emit.messageHistory "s2" [] :: rest :=
  claim8_no_history_resurrection stateA "s1" 3 (PresenceRecord.mk "alice" "main" 0)
    "s2" "bob" "main" "bob" 4 reachable_stateA (by rw [stateA_eq]; rfl)
    (by rw [stateA_eq]; rfl) rfl

/-- A state in which room "r" has a member but no history ring (outside the
reachable invariant), exercising the missing-ring send path. -/
def stateNoRing : ServerState :=
  ⟨[("s1", PresenceRecord.mk "alice" "r" 0)], [("r", ["s1"])], []⟩

/-- C9 counterexample: when the room has no History Ring, line 121's
`history.push` throws on `undefined` and the catch block (lines 129-132)
emits `error{Failed to send message}` to the sender.  The send is therefore
NOT a silent no-op: an error event is emitted to the sender, refuting the
claim's "raises no error, emits no event to the sender". -/
theorem claim9_counterexample :
    (step stateNoRing (Event.sendMessage "s1" (some "hi") 5)).2 =
      [Emit.error "s1" "Failed to send message"] ∧
    (step stateNoRing (Event.sendMessage "s1" (some "hi") 5)).2 ≠ [] :=
  ⟨rfl, by decide⟩

/-- C9 (amended): when the room has no History Ring, a valid send leaves all
state unchanged and broadcasts no `new_message`, but is not silent: the
handler's catch boundary answers `error{Failed to send message}` to the
sender only. -/
theorem claim9_no_ring_send (s : ServerState) (id : String) (u : PresenceRecord)
    (body : String) (now : Nat) (hu : mfind s.users id = some u)
    (h0 : (jsTrim body).length ≠ 0) (h1 : (jsTrim body).length ≤ 1000)
    (hr : mfind s.messageHistory u.room = none) :
    handleSend s id (some body) now = (s, [Emit.error id "Failed to send message"]) :=
  handleSend_no_ring s id u (some body) now hu h0
    (show ¬ (jsTrim body).length > 1000 by omega) hr

theorem claim9_witness :
    handleSend stateNoRing "s1" (some "hi") 5 =
      (stateNoRing, [Emit.error "s1" "Failed to send message"]) :=
  claim9_no_ring_send stateNoRing "s1" (PresenceRecord.mk "alice" "r" 0) "hi" 5
    rfl (by decide) (by decide) rfl

/-- C10: a room value that is absent or the empty string receives the default
"general" (the default applies to any falsy room value), while a
whitespace-only room string is not defaulted: it trims to the empty string
and the connection joins the room whose id is the empty string. -/
theorem claim10_room_default (un rm : String) (h0 : (jsTrim un).length ≠ 0)
    (h50 : ¬ un.length > 50) (hws : jsTrim rm = "") (hne : rm ≠ "") :
    admission (some un) none = Except.ok (jsTrim un, "general") ∧
    admission (some un) (some "") = Except.ok (jsTrim un, "general") ∧
    admission (some un) (some rm) = Except.ok (jsTrim un, "") ∧
    ∀ i now,
      mfind (step initState (Event.connect i (some un) (some rm) now)).1.rooms "" =
        some [i] := by
  have hg : jsTrim "general" = "general" := rfl
  have e3 : admission (some un) (some rm) = Except.ok (jsTrim un, "") := by
    simp [admission, h0, h50, hne, hws]
  refine ⟨by simp [admission, h0, h50, hg], by simp [admission, h0, h50, hg], e3, ?_⟩
  intro i now
  rw [step_connect_ok initState i (some un) (some rm) now (jsTrim un) "" e3]
  rw [handleConnection_new initState i (jsTrim un) "" now rfl]
  exact mfind_mset_self _ _ _

theorem claim10_witness :
    mfind (step initState (Event.connect "s9" (some " bob ") (some " ") 2)).1.rooms "" =
      some ["s9"] :=
  (claim10_room_default " bob " " " (by decide) (by decide) rfl (by decide)).2.2.2 "s9" 2

end Chat
